import Mathlib

/-!
Verification development for the evaluation core of a units-of-measure
calculator (`src/eval.rs`).  The data model and the operations referenced by
the claims are embedded shallowly: names are lists of characters, unit
vectors are key-sorted association lists (the `BTreeMap<String, i64>` of the
source), magnitudes are exact rationals (`ℚ` for the GMP `Mpq`), and the
evaluator is a total Lean function in an outcome monad that distinguishes
user-visible errors from host panics (`unwrap` / `expect` in the source).

Components of the repository that the claims depend on but whose sources are
not present under `src/` (the `Number` arithmetic of `number.rs`, the date
bridge of `date.rs`, the expression pretty-printers) are modelled from the
specification; each such definition carries a doc comment starting with
`Modelled from the spec:`.
-/

namespace Rink

/-- Interned strings (`Rc<String>`) are modelled as lists of characters. -/
abbrev Str := List Char

/-- Conversion from Lean string literals to names. -/
def chars (s : String) : Str := s.data

/-- Render a name back into a Lean `String` (for building messages). -/
def strOf (s : Str) : String := String.mk s

/-- A unit vector: the source's `Unit = BTreeMap<Rc<String>, i64>`, embedded
as an association list sorted strictly by key with no zero exponents
(the canonical form a `BTreeMap` maintains). -/
abbrev UnitV := List (Str × Int)

/-- Map lookup with default 0: reading an exponent out of a unit vector. -/
def uget : UnitV → Str → Int
  | [], _ => 0
  | (k, v) :: rest, key => if key = k then v else uget rest key

/-- Canonical form of a unit vector: keys strictly sorted, no zero entries.
Every unit vector the program constructs satisfies this (it is the
`BTreeMap` representation invariant plus the zero-pruning the merge does). -/
def UCanon (u : UnitV) : Prop :=
  List.Pairwise (fun a b : Str × Int => a.1 < b.1) u ∧ ∀ p ∈ u, p.2 ≠ 0

instance : DecidablePred UCanon := fun u => by
  unfold UCanon; infer_instance

/-- Add `dv` to the exponent of key `k` in a sorted unit vector, keeping
the sorted position and pruning a zero result. -/
def uinsertAdd (k : Str) (dv : Int) : UnitV → UnitV
  | [] => if dv = 0 then [] else [(k, dv)]
  | (k', v') :: rest =>
    if k < k' then
      (if dv = 0 then (k', v') :: rest else (k, dv) :: (k', v') :: rest)
    else if k = k' then
      (if v' + dv = 0 then rest else (k', v' + dv) :: rest)
    else (k', v') :: uinsertAdd k dv rest

/-- Modelled from the spec (§4.A): the `btree_merge` of the crate root
(absent from `src/`) with combiner `if a+b != 0 { Some(a+b) } else { None }`:
elementwise addition of signed exponent maps with zero-coefficient
pruning, used for multiplication and division of dimensioned numbers. -/
def umerge (u v : UnitV) : UnitV :=
  u.foldr (fun p acc => uinsertAdd p.1 p.2 acc) v

/-- Pointwise negation of a unit vector (for reciprocals / division). -/
def uneg (u : UnitV) : UnitV := u.map (fun p => (p.1, -p.2))

/-- Scale all exponents by an integer, pruning zeros (powers). -/
def uscale (k : Int) (u : UnitV) : UnitV :=
  if k = 0 then [] else u.map (fun p => (p.1, p.2 * k))

/-- All exponents divisible by `r` (the root requirement). -/
def udivisible (r : Int) (u : UnitV) : Bool := u.all (fun p => r ∣ p.2)

/-- Divide every exponent by `r` (the root result; exponents are exactly
divisible when this is called). -/
def udiv (r : Int) (u : UnitV) : UnitV := u.map (fun p => (p.1, p.2 / r))

/-- A dimensioned number, the source's `Number(Mpq, Unit)`: an exact
rational magnitude paired with a unit vector. -/
structure Number where
  q : ℚ
  u : UnitV
deriving DecidableEq, Repr

/-- Modelled from the spec: `Number::one` of `number.rs` (absent from
`src/`), the dimensionless 1. -/
def Number.one : Number := ⟨1, []⟩

/-- Modelled from the spec: `Number::one_unit` of `number.rs` (absent from
`src/`), magnitude 1 with a single base dimension at exponent 1. -/
def Number.oneUnit (name : Str) : Number := ⟨1, [(name, 1)]⟩

/-- Modelled from the spec (§4.B): addition of dimensioned numbers from
`number.rs` (absent from `src/`); defined iff both operands share the unit
vector, keeping it. -/
def Number.add (a b : Number) : Option Number :=
  if a.u = b.u then some ⟨a.q + b.q, a.u⟩ else none

/-- Modelled from the spec (§4.B): subtraction of dimensioned numbers from
`number.rs` (absent from `src/`); defined iff both operands share the unit
vector. -/
def Number.sub (a b : Number) : Option Number :=
  if a.u = b.u then some ⟨a.q - b.q, a.u⟩ else none

/-- Modelled from the spec (§4.B): multiplication of dimensioned numbers
from `number.rs` (absent from `src/`): `(q₁·q₂, U₁+U₂)`; never fails. -/
def Number.mul (a b : Number) : Number := ⟨a.q * b.q, umerge a.u b.u⟩

/-- Modelled from the spec (§4.B): division of dimensioned numbers from
`number.rs` (absent from `src/`): `(q₁/q₂, U₁−U₂)`, failing on a zero
divisor. -/
def Number.div (a b : Number) : Option Number :=
  if b.q = 0 then none else some ⟨a.q / b.q, umerge a.u (uneg b.u)⟩

/-- Modelled from the spec (§4.B): negation from `number.rs` (absent from
`src/`); never fails. -/
def Number.neg (a : Number) : Number := ⟨-a.q, a.u⟩

/-- Modelled from the spec (§4.C): `Number::invert` (reciprocal) from
`number.rs` (absent from `src/`): `(1/q, −U)`. -/
def Number.invert (a : Number) : Number := ⟨a.q⁻¹, uneg a.u⟩

/-- Modelled from the spec (§4.B): power from `number.rs` (absent from
`src/`): the exponent must be dimensionless with an integer value; yields
`(q^k, k·U)`. -/
def Number.pow (a b : Number) : Option Number :=
  if b.u = [] ∧ b.q.den = 1 then some ⟨a.q ^ b.q.num, uscale b.q.num a.u⟩
  else none

/-- Modelled from the spec (§4.B, §4.E): the integer square root of a
natural number lifted to rationals; used by `Number::root` of `number.rs`
(absent from `src/`). -/
def ratIntSqrt (q : ℚ) : ℚ :=
  (Int.ofNat (Nat.sqrt q.num.toNat) : ℚ) / (Nat.sqrt q.den : ℚ)

/-- Modelled from the spec (§4.B, §4.E): `Number::root` of `number.rs`
(absent from `src/`): requires every exponent divisible by the index and
takes the integer root of the magnitude with exponents divided. -/
def Number.root (r : Int) (a : Number) : Option Number :=
  if udivisible r a.u then some ⟨ratIntSqrt a.q, udiv r a.u⟩ else none

/-- Modelled from the spec (§1 leaves numeral pretty-printing out of
scope): rendering of a rational magnitude, standing in for the
`number.rs` pretty-printer (absent from `src/`). -/
def ratShow (q : ℚ) : String :=
  toString q.num ++ (if q.den = 1 then "" else "/" ++ toString q.den)

/-- Render the unit part of a number (one space before each name,
exponent appended when not 1). -/
def unitPartShow (u : UnitV) : String :=
  u.foldl (fun acc p =>
    acc ++ " " ++ strOf p.1 ++ (if p.2 = 1 then "" else "^" ++ toString p.2)) ""

/-- Modelled from the spec: `Show for Number` of `number.rs` (absent from
`src/`): renders the magnitude followed by the unit names. -/
def Number.show (n : Number) : String := ratShow n.q ++ unitPartShow n.u

/-- Modelled from the spec: `Number::show_number_part` of `number.rs`
(absent from `src/`): renders only the magnitude. -/
def Number.showNumberPart (n : Number) : String := ratShow n.q

/-- Outcome of evaluation: a value, a user-visible error (`Err` of a
`Result` in the source), or a host panic (`unwrap` / `expect` failure in the
source, which aborts the process). -/
inductive Res (α : Type) where
  | ok (a : α)
  | error (e : String)
  | panic (e : String)
deriving Repr, DecidableEq

/-- `try!` / `?` propagation: errors and panics short-circuit. -/
def Res.bind {α β : Type} : Res α → (α → Res β) → Res β
  | .ok a, f => f a
  | .error e, _ => .error e
  | .panic e, _ => .panic e

def Res.map {α β : Type} (f : α → β) : Res α → Res β
  | .ok a => .ok (f a)
  | .error e => .error e
  | .panic e => .panic e

/-- `Result::unwrap()` in the source: a recoverable error becomes a host
panic. -/
def unwrapRes {α : Type} : Res α → Res α
  | .ok a => .ok a
  | .error e => .panic e
  | .panic e => .panic e

/-- Message of `Option::unwrap()` on `None`. -/
def unwrapMsg : String := "called Option.unwrap on None"

/-- Modelled from the spec (§4.C, §6): the unit vector of "second", the
dimension the date bridge of `date.rs` (absent from `src/`) demands when a
dimensioned number is interpreted as a duration. -/
def secondV : UnitV := [(chars "s", 1)]

/-- Modelled from the spec (§4.C, §6): `date::to_duration` of `date.rs`
(absent from `src/`): requires the unit vector of "second" and reads the
magnitude as seconds. -/
def toDuration (n : Number) : Res ℚ :=
  if n.u = secondV then .ok n.q
  else .error "Expected seconds for duration"

/-- Modelled from the spec (§6): `date::from_duration` of `date.rs` (absent
from `src/`): a duration becomes a dimensioned number in seconds. -/
def fromDuration (d : ℚ) : Res Number := .ok ⟨d, secondV⟩

/-- Modelled from the spec (§6): timestamps are absolute instants; we
abstract `DateTime<FixedOffset>` as rational seconds since an epoch, and the
`checked_add`/`checked_sub` of the date arithmetic as total (the chrono
range, whose exhaustion surfaces as an error, is not reached by any claim). -/
def checkedAdd (d : ℚ) (dur : ℚ) : Option ℚ := some (d + dur)

/-- Modelled from the spec (§6): see `checkedAdd`. -/
def checkedSub (d : ℚ) (dur : ℚ) : Option ℚ := some (d - dur)

/-- Modelled from the spec: `Show for DateTime` (rendering of timestamps is
outside the core). -/
def dtShow (d : ℚ) : String := "datetime " ++ ratShow d

/-- The source's `Value`: a dimensioned number or a timestamp. -/
inductive Value where
  | number (n : Number)
  | datetime (d : ℚ)
deriving DecidableEq, Repr

/-- `Show for Value`. -/
def Value.show : Value → String
  | .number n => n.show
  | .datetime d => dtShow d

/-- `Add for &Value` (eval.rs lines 74–91). -/
def Value.vadd : Value → Value → Res Value
  | .number left, .number right =>
    match left.add right with
    | some v => .ok (.number v)
    | none => .error "Addition of units with mismatched units is not meaningful"
  | .datetime left, .number right =>
    (toDuration right).bind fun dur =>
      match checkedAdd left dur with
      | some v => .ok (.datetime v)
      | none => .error "Implementation error: value is out of range representable by datetime"
  | .number right, .datetime left =>
    (toDuration right).bind fun dur =>
      match checkedAdd left dur with
      | some v => .ok (.datetime v)
      | none => .error "Implementation error: value is out of range representable by datetime"
  | _, _ => .error "Operation is not defined"

/-- `Sub for &Value` (eval.rs lines 93–113).  Note the or-pattern of the
source: `(DateTime l, Number r) | (Number r, DateTime l)` both subtract the
duration from the timestamp, so `Num − Date` is NOT an error. -/
def Value.vsub : Value → Value → Res Value
  | .number left, .number right =>
    match left.sub right with
    | some v => .ok (.number v)
    | none => .error "Subtraction of units with mismatched units is not meaningful"
  | .datetime left, .number right =>
    (toDuration right).bind fun dur =>
      match checkedSub left dur with
      | some v => .ok (.datetime v)
      | none => .error "Implementation error: value is out of range representable by datetime"
  | .number right, .datetime left =>
    (toDuration right).bind fun dur =>
      match checkedSub left dur with
      | some v => .ok (.datetime v)
      | none => .error "Implementation error: value is out of range representable by datetime"
  | .datetime left, .datetime right => (fromDuration (left - right)).map .number

/-- `Neg for &Value` (eval.rs lines 115–125). -/
def Value.vneg : Value → Res Value
  | .number n => .ok (.number n.neg)
  | _ => .error "Operation is not defined"

/-- `Mul for &Value` (eval.rs lines 127–139). -/
def Value.vmul : Value → Value → Res Value
  | .number left, .number right => .ok (.number (left.mul right))
  | _, _ => .error "Operation is not defined"

/-- `Div for &Value` (eval.rs lines 141–153). -/
def Value.vdiv : Value → Value → Res Value
  | .number left, .number right =>
    match left.div right with
    | some v => .ok (.number v)
    | none => .error "Division by zero"
  | _, _ => .error "Operation is not defined"

/-- `Value::pow` (eval.rs lines 64–72); the inner message is that of
`Number::pow` of `number.rs` (absent from `src/`), modelled from the spec. -/
def Value.vpow : Value → Value → Res Value
  | .number left, .number right =>
    match left.pow right with
    | some v => .ok (.number v)
    | none => .error "Exponent must be a dimensionless integer"
  | _, _ => .error "Operation is not defined"

/-- The six temperature-scale suffixes of the expression grammar. -/
inductive SuffixOp where
  | celsius | fahrenheit | reaumur | romer | delisle | newton
deriving DecidableEq, Repr

/-- The expression tree delivered by the external parser (`ast.rs`, absent
from `src/`; the variants and their payloads are those `eval.rs` consumes).
A date literal carries the instant the external date decoder produced. -/
inductive Expr where
  | unit (name : Str)
  | quote (name : Str)
  | const (num : Str) (frac : Option Str) (exp : Option Str)
  | date (instant : ℚ)
  | neg (e : Expr)
  | plus (e : Expr)
  | frac (l r : Expr)
  | add (l r : Expr)
  | sub (l r : Expr)
  | pow (l r : Expr)
  | suffix (op : SuffixOp) (e : Expr)
  | mul (args : List Expr)
  | equals (l r : Expr)
  | call (name : Str) (args : List Expr)
  | error (e : String)
deriving Repr

/-- Parse an unsigned decimal digit string. -/
def parseDigits : Str → Option ℕ
  | [] => none
  | cs =>
    if cs.all (fun c => c.isDigit) then
      some (cs.foldl (fun acc c => acc * 10 + (c.toNat - 48)) 0)
    else none

/-- Parse a decimal integer with an optional leading sign. -/
def parseInt : Str → Option ℤ
  | '-' :: cs => (parseDigits cs).map (fun n => -(n : ℤ))
  | '+' :: cs => (parseDigits cs).map (fun n => (n : ℤ))
  | cs => (parseDigits cs).map (fun n => (n : ℤ))

/-- Modelled from the spec (§4.E): `Number::from_parts` of `number.rs`
(absent from `src/`): integer part, optional fractional digits read as
numerator over 10^digits, optional signed base-10 exponent, assembled as an
exact rational. -/
def fromParts (num : Str) (frac : Option Str) (exp : Option Str) : Res Number :=
  match parseInt num with
  | none => .error "Invalid literal"
  | some ip =>
    let fracVal : Option ℚ :=
      match frac with
      | none => some 0
      | some fs => (parseDigits fs).map (fun n => (n : ℚ) / (10 : ℚ) ^ fs.length)
    match fracVal with
    | none => .error "Invalid literal"
    | some fv =>
      match exp with
      | none => .ok ⟨(ip : ℚ) + fv, []⟩
      | some es =>
        match parseInt es with
        | none => .error "Invalid literal"
        | some e => .ok ⟨((ip : ℚ) + fv) * (10 : ℚ) ^ e, []⟩

/-- The evaluation context (eval.rs lines 24–33).  Hash maps become
association lists whose insert removes the old binding; `nowInstant` models
the host clock read by the `now` identifier. -/
structure Context where
  dimensions : List Str
  units : List (Str × Number)
  aliases : List (UnitV × Str)
  reverse : List (UnitV × Str)
  prefixes : List (Str × Number)
  definitions : List (Str × Expr)
  shortOutput : Bool
  nowInstant : ℚ

/-- `HashMap::get`. -/
def alookup {κ β : Type} [DecidableEq κ] : List (κ × β) → κ → Option β
  | [], _ => none
  | (k, v) :: rest, key => if k = key then some v else alookup rest key

/-- `HashMap::insert`: the old binding for the key is replaced. -/
def ainsert {κ β : Type} [DecidableEq κ] (m : List (κ × β)) (key : κ) (v : β) :
    List (κ × β) :=
  (key, v) :: m.filter (fun p => p.1 ≠ key)

/-- The alias scan of lookup step 3: the first entry whose value is the
name. -/
def aliasFind : List (UnitV × Str) → Str → Option UnitV
  | [], _ => none
  | (u, a) :: rest, name => if name = a then some u else aliasFind rest name

/-- The prefix-peeling loop of `Context::lookup` (eval.rs lines 182–188),
parameterized by the recursive call: the first prefix in insertion order
that starts the name and whose remainder resolves wins; the source then
multiplies the remainder's value by the prefix magnitude. -/
def peelPre (rec : Str → Option Number) (name : Str) :
    List (Str × Number) → Option Number
  | [] => none
  | (pre, value) :: rest =>
    if pre.isPrefixOf name then
      match rec (name.drop pre.length) with
      | some v => some (v.mul value)
      | none => peelPre rec name rest
    else peelPre rec name rest

/-- One unfolding of `Context::lookup` (eval.rs lines 163–190),
parameterized by the recursive call: base dimensions, then the unit table,
then alias values, then plural stripping, then prefix peeling. -/
def lookupBody (ctx : Context) (rec : Str → Option Number) (name : Str) :
    Option Number :=
  if name ∈ ctx.dimensions then some (Number.oneUnit name)
  else match alookup ctx.units name with
  | some v => some v
  | none =>
    match aliasFind ctx.aliases name with
    | some u => some ⟨Number.one.q, u⟩
    | none =>
      match (if name.getLast? = some 's' then rec name.dropLast else none) with
      | some v => some v
      | none => peelPre rec name ctx.prefixes

/-- Fuel-indexed recursion for `Context::lookup`.  Every recursive call of
the source strictly shortens the name as long as every prefix is a
non-empty string (with an empty prefix the source itself fails to
terminate), so fuel `length + 1` computes the source's answer. -/
def lookupAux (ctx : Context) : ℕ → Str → Option Number
  | 0, _ => none
  | fuel + 1, name => lookupBody ctx (lookupAux ctx fuel) name

/-- `Context::lookup` (eval.rs lines 163–190). -/
def Context.lookup (ctx : Context) (name : Str) : Option Number :=
  lookupAux ctx (name.length + 1) name

/-- The names of the six temperature suffixes as printed in messages. -/
def suffixName : SuffixOp → String
  | .celsius => "C"
  | .fahrenheit => "F"
  | .reaumur => "Ré"
  | .romer => "Rø"
  | .delisle => "De"
  | .newton => "N"

/-- The zero-constant unit name of each temperature suffix (eval.rs lines
317–328). -/
def suffixBase : SuffixOp → Str
  | .celsius => chars "zerocelsius"
  | .fahrenheit => chars "zerofahrenheit"
  | .reaumur => chars "zerocelsius"
  | .romer => chars "zeroromer"
  | .delisle => chars "zerodelisle"
  | .newton => chars "zerocelsius"

/-- The scale unit name of each temperature suffix (eval.rs lines
317–328). -/
def suffixScale : SuffixOp → Str
  | .celsius => chars "kelvin"
  | .fahrenheit => chars "degrankine"
  | .reaumur => chars "reaumur_absolute"
  | .romer => chars "romer_absolute"
  | .delisle => chars "delisle_absolute"
  | .newton => chars "newton_absolute"

/-- The `temperature!` macro of `Context::eval` (eval.rs lines 280–296),
applied to the already-evaluated operand: the operand must be a
dimensionless number; it is multiplied by the scale unit and added to the
zero constant.  A missing scale or zero constant aborts (`expect`), and the
final addition is unwrapped. -/
def tempSuffix (ctx : Context) (sname : String) (base scale : Str)
    (left : Value) : Res Value :=
  match left with
  | .number l =>
    if l.u ≠ [] then .error ("Expected dimensionless, got: <" ++ l.show ++ ">")
    else
      match ctx.lookup scale with
      | none => .panic ("Missing " ++ strOf scale ++ " unit")
      | some sc =>
        match ctx.lookup base with
        | none => .panic ("Missing " ++ strOf base ++ " constant")
        | some b =>
          match (l.mul sc).add b with
          | some v => .ok (.number v)
          | none => .panic unwrapMsg
  | v => .error ("Expected number, got: <" ++ v.show ++ "> °" ++ sname)

/-- The dispatch of `Expr::Call` (eval.rs lines 338–354), applied to the
already-evaluated arguments: only "sqrt" with arity 1 on a number with
every exponent even is accepted. -/
def callDispatch (name : Str) (vs : List Value) : Res Value :=
  if name = chars "sqrt" then
    match vs with
    | [Value.number num] =>
      match num.root 2 with
      | some r => .ok (.number r)
      | none => .error ("Expected squared units, got <" ++ num.show ++ ">")
    | [x] => .error ("Expected number, got <" ++ x.show ++ ">")
    | _ => .error ("Argument number mismatch for sqrt: expected 1, got "
                   ++ toString vs.length)
  else .error ("Function not found: " ++ strOf name)

mutual

/-- `Context::eval` (eval.rs lines 268–357). -/
def eval (ctx : Context) : Expr → Res Value
  | .unit name =>
    if name = chars "now" then .ok (.datetime ctx.nowInstant)
    else
      match ctx.lookup name with
      | some v => .ok (.number v)
      | none => .error ("Unknown unit " ++ strOf name)
  | .quote name => .ok (.number (Number.oneUnit name))
  | .const num frac exp => (fromParts num frac exp).map .number
  | .date d => .ok (.datetime d)
  | .neg e => (eval ctx e).bind Value.vneg
  | .plus e => eval ctx e
  | .frac l r =>
    (eval ctx l).bind fun lv => (eval ctx r).bind fun rv =>
      match lv.vdiv rv with
      | .error e => .error (e ++ ": <" ++ lv.show ++ "> / <" ++ rv.show ++ ">")
      | other => other
  | .add l r =>
    (eval ctx l).bind fun lv => (eval ctx r).bind fun rv =>
      match lv.vadd rv with
      | .error e => .error (e ++ ": <" ++ lv.show ++ "> + <" ++ rv.show ++ ">")
      | other => other
  | .sub l r =>
    (eval ctx l).bind fun lv => (eval ctx r).bind fun rv =>
      match lv.vsub rv with
      | .error e => .error (e ++ ": <" ++ lv.show ++ "> - <" ++ rv.show ++ ">")
      | other => other
  | .pow l r =>
    (eval ctx l).bind fun lv => (eval ctx r).bind fun rv =>
      match lv.vpow rv with
      | .error e => .error (e ++ ": <" ++ lv.show ++ "> ^ <" ++ rv.show ++ ">")
      | other => other
  | .suffix op e =>
    (eval ctx e).bind
      (tempSuffix ctx (suffixName op) (suffixBase op) (suffixScale op))
  | .mul args => evalMulFold ctx (.ok (.number Number.one)) args
  | .equals _ r => eval ctx r
  | .call name args => (evalArgs ctx args).bind (callDispatch name)
  | .error e => .error e

/-- The fold of `Expr::Mul` (eval.rs lines 331–336): seeded with the
dimensionless 1, each factor is multiplied in via `Mul for &Value` whose
`Result` is UNWRAPPED — an error (a timestamp operand) panics. -/
def evalMulFold (ctx : Context) : Res Value → List Expr → Res Value
  | acc, [] => acc
  | acc, b :: rest =>
    evalMulFold ctx
      (acc.bind fun a => (eval ctx b).bind fun bv => unwrapRes (a.vmul bv))
      rest

/-- The argument collection of `Expr::Call`: evaluate left to right, first
failure propagates. -/
def evalArgs (ctx : Context) : List Expr → Res (List Value)
  | [] => .ok []
  | e :: rest =>
    (eval ctx e).bind fun v => (evalArgs ctx rest).bind fun vs => .ok (v :: vs)

end

/-- Modelled from the spec: the derived Debug / Display renderings of
expressions live in `ast.rs` (absent from `src/`); they appear only inside
some error and definition strings, whose exact expression text no claim
inspects. -/
def exprDebug : Expr → String := fun _ => "<expr>"

/-- Modelled from the spec: see `exprDebug`. -/
def exprDisplay : Expr → String := fun _ => "<expr>"

/-- Modelled from the spec: the Debug rendering of a unit-name list in the
"Cannot convert" message of the list-conversion arm. -/
def listDebug (names : List Str) : String :=
  "[" ++ String.intercalate ", " (names.map strOf) ++ "]"

mutual

/-- `Context::eval_unit_name` (eval.rs lines 359–426): the signed-exponent
map over names as written on the right-hand side of a conversion.  The
`btree_merge` with `if a+b != 0` of the source is `umerge`; the `f64`
truncation of a rational exponent in the `Pow` case is modelled as exact
truncation toward zero of the rational. -/
def evalUnitName (ctx : Context) : Expr → Res UnitV
  | .equals l _ =>
    match l with
    | .unit name => .ok [(name, 1)]
    | x => .error ("Expected identifier, got " ++ exprDebug x)
  | .call _ _ => .error "Calls are not allowed in the right hand side of conversions"
  | .unit name => .ok [(name, 1)]
  | .quote name => .ok [(name, 1)]
  | .const x none none =>
    if x = chars "1" ∨ x = chars "-1" then .ok []
    else .error "Constants are not allowed in the right hand side of conversions"
  | .const _ _ _ => .error "Constants are not allowed in the right hand side of conversions"
  | .frac l r =>
    (evalUnitName ctx l).bind fun lm =>
    (evalUnitName ctx r).bind fun rm =>
    .ok (umerge lm (uneg rm))
  | .mul args =>
    match args with
    | [] => .panic "index out of bounds"
    | a :: rest => evalUnitNameMul ctx (evalUnitName ctx a) rest
  | .pow l exp =>
    (eval ctx exp).bind fun res =>
    match res with
    | .datetime _ => .error "Exponents must be numbers"
    | .number num =>
      if num.u.length > 0 then .error "Exponents must be dimensionless"
      else
        let k : ℤ := num.q.num / (num.q.den : ℤ)
        (evalUnitName ctx l).map fun lm =>
          (lm.map (fun p => (p.1, p.2 * k))).filter (fun p => p.2 ≠ 0)
  | .add l r =>
    (evalUnitName ctx l).bind fun lm =>
    (evalUnitName ctx r).bind fun rm =>
    if lm ≠ rm then .error "Add of values with differing dimensions is not meaningful"
    else .ok lm
  | .sub l r =>
    (evalUnitName ctx l).bind fun lm =>
    (evalUnitName ctx r).bind fun rm =>
    if lm ≠ rm then .error "Add of values with differing dimensions is not meaningful"
    else .ok lm
  | .neg v => evalUnitName ctx v
  | .plus v => evalUnitName ctx v
  | .suffix _ _ => .error "Temperature conversions must not be compound units"
  | .date _ => .error "Dates are not allowed in the right hand side of conversions"
  | .error e => .error e

/-- The fold of the variadic multiplication case of `eval_unit_name`
(eval.rs lines 383–389): merge each factor's name map additively. -/
def evalUnitNameMul (ctx : Context) : Res UnitV → List Expr → Res UnitV
  | acc, [] => acc
  | acc, b :: rest =>
    evalUnitNameMul ctx
      (acc.bind fun am => (evalUnitName ctx b).bind fun bm => .ok (umerge am bm))
      rest

end

/-- One entry of the unaliased rendering in `describe_unit`: the singleton
vector at the full exponent, else the singleton at exponent 1, else the
quoted dimension; the exponent suffix only in the non-aliased cases. -/
def describeEntry (ctx : Context) (dim : Str) (pw : Int) : String :=
  match alookup ctx.aliases [(dim, pw)] with
  | some name => " " ++ strOf name
  | none =>
    (match alookup ctx.aliases [(dim, 1)] with
     | some name => " " ++ strOf name
     | none => " '" ++ strOf dim ++ "'") ++
    (if pw ≠ 1 then "^" ++ toString pw else "")

/-- Drop the leading character (the `buf.remove(0)` of `describe_unit`;
the source panics when the buffer is empty, which no reachable call does). -/
def dropFirstChar (s : String) : String := String.mk (s.data.drop 1)

/-- `Context::describe_unit` (eval.rs lines 195–264): renders a unit vector
through the alias table; the flag is true when the result reads as a
reciprocal. -/
def describeUnit (ctx : Context) (value : Number) : Bool × String :=
  let square := Number.root 2 ⟨1, value.u⟩
  let inverse : Number := (Number.one.div ⟨1, value.u⟩).getD Number.one
  match alookup ctx.aliases value.u with
  | some name => (false, strOf name)
  | none =>
    match square.bind (fun sq => alookup ctx.aliases sq.u) with
    | some name => (false, strOf name ++ "^2")
    | none =>
      match alookup ctx.aliases inverse.u with
      | some name => (true, strOf name)
      | none =>
        let tops := value.u.filter (fun p => ¬ p.2 < 0)
        let fracs := (value.u.filter (fun p => p.2 < 0)).map (fun p => (p.1, -p.2))
        let buf := String.join (tops.map (fun p => describeEntry ctx p.1 p.2))
        let buf :=
          if fracs.isEmpty then buf
          else (if tops.isEmpty then buf else buf ++ " /") ++
               String.join (fracs.map (fun p => describeEntry ctx p.1 p.2))
        (¬ fracs.isEmpty ∧ tops.isEmpty, dropFirstChar buf)

/-- Right-justification to a field width (the `{:>width$}` format). -/
def padLeft (s : String) (w : ℕ) : String :=
  if s.length < w then String.mk (List.replicate (w - s.length) ' ') ++ s else s

/-- The `conformance_err` closure of `eval_outer` (eval.rs lines 430–473):
the two-line (or compressed) report plus suggestions. -/
def conformanceErr (ctx : Context) (top bottom : Number) : String :=
  let width := 12
  let topu : Number := ⟨1, top.u⟩
  let bottomu : Number := ⟨1, bottom.u⟩
  let left := topu.show
  let right := bottomu.show
  let header :=
    if ctx.shortOutput then
      "Conformance error [ " ++ left ++ " || " ++ right ++ " ]\n"
    else
      "Conformance error\n" ++ padLeft "Left side" width ++ ": " ++ left ++ "\n"
        ++ padLeft "Right side" width ++ ": " ++ right ++ "\n"
  let diff := topu.mul bottomu
  if diff.u = [] then
    header ++ padLeft "Suggestions" width ++ ": Reciprocal conversion, invert one side\n"
  else
    let diff := (topu.div bottomu).getD Number.one
    let d1 := describeUnit ctx diff.invert
    let word1 := if d1.1 then "divide" else "multiply"
    let d2 := describeUnit ctx diff
    let word2 := if d2.1 then "divide" else "multiply"
    header
      ++ padLeft "Suggestions" width ++ ": " ++ word1 ++ " left side by "
      ++ d1.2.trim ++ "\n"
      ++ padLeft "" width ++ "  " ++ word2 ++ " right side by "
      ++ d2.2.trim ++ "\n"

/-- The `show` closure of `eval_outer` (eval.rs lines 475–516): numeric
part, the target side reconstructed from the user's unit spellings, and the
describer's reduced form in parentheses. -/
def showConv (ctx : Context) (raw bottom : Number) (bottomName : UnitV) : String :=
  let number := raw.showNumberPart
  let tops := bottomName.filter (fun p => ¬ p.2 < 0)
  let fracs := (bottomName.filter (fun p => p.2 < 0)).map (fun p => (p.1, -p.2))
  let unitTop := tops.foldl
    (fun acc p => acc ++ " " ++ strOf p.1
      ++ (if p.2 ≠ 1 then "^" ++ toString p.2 else "")) ""
  let unitFrac := fracs.foldl
    (fun acc p => (if acc.length > 0 then acc ++ " " else acc) ++ strOf p.1
      ++ (if p.2 ≠ 1 then "^" ++ toString p.2 else "")) ""
  let unitFrac := if unitFrac.length > 0 then " / " ++ unitFrac else unitFrac
  let reduced :=
    match describeUnit ctx bottom with
    | (false, v) => v
    | (true, v) => "1 / " ++ v
  number ++ unitTop ++ unitFrac ++ " (" ++ reduced ++ ")"

/-- The emission loop of the list conversion (eval.rs lines 579–595): for
every unit except the last, the integer quotient of the running residue by
the unit's magnitude is emitted and that multiple is subtracted; for the
last unit the exact rational quotient is emitted.  The integer division
`res.get_num() / res.get_den()` of the external bignum backend is modelled
from the spec (§4.H) as floor division, exact on the canonical positive
denominator. -/
def listDecompose (q0 : ℚ) : List ℚ → List ℚ
  | [] => []
  | m :: rest =>
    let res := q0 / m
    let dv : ℤ := Int.fdiv res.num res.den
    let rem := q0 - m * (dv : ℚ)
    if rest.isEmpty then [res]
    else (dv : ℚ) :: listDecompose rem rest

/-- The unit-list resolution of the list conversion (eval.rs lines
559–564): each name must resolve via lookup. -/
def lookupUnits (ctx : Context) : List Str → Res (List Number)
  | [] => .ok []
  | x :: rest =>
    match ctx.lookup x with
    | some v => (lookupUnits ctx rest).map (v :: ·)
    | none => .error ("Unit " ++ strOf x ++ " does not exist")

/-- The rendering of the list conversion's emitted values (eval.rs lines
596–608): "v u, " per pair, the trailing separator popped, then the alias
of the source vector in parentheses when present.  `number::to_string` of
`number.rs` (absent from `src/`) is modelled by `ratShow`. -/
def renderList (ctx : Context) (names : List Str) (out : List ℚ)
    (srcU : UnitV) : String :=
  let buf := String.join
    ((names.zip out).map (fun p => ratShow p.2 ++ " " ++ strOf p.1 ++ ", "))
  let buf := String.mk buf.data.dropLast.dropLast
  match alookup ctx.aliases srcU with
  | some res => buf ++ " (" ++ strOf res ++ ")"
  | none => buf

/-- The temperature-conversion core (eval.rs lines 617–637) on an already
numeric source: look up the scale unit (aborting when missing), demand
conformance, subtract the zero constant (aborting when missing) and divide
by the scale; returns the quotient and the scale unit. -/
def degConvRaw (ctx : Context) (base scale : Str) (num : Number) :
    Res (Number × Number) :=
  match ctx.lookup scale with
  | none => .panic ("Unit " ++ strOf scale ++ " missing")
  | some bottom =>
    if num.u ≠ bottom.u then .error (conformanceErr ctx num bottom)
    else
      match ctx.lookup base with
      | none => .panic ("Constant " ++ strOf base ++ " missing")
      | some zc =>
        match num.sub zc with
        | none => .panic unwrapMsg
        | some r1 =>
          match r1.div bottom with
          | none => .panic unwrapMsg
          | some res => .ok (res, bottom)

/-- The `temperature!` macro of `eval_outer` (eval.rs lines 617–637),
including the rejection of timestamps and the final rendering under the
`°T` spelling. -/
def degConvert (ctx : Context) (sname : String) (base scale : Str)
    (topv : Value) : Res String :=
  match topv with
  | .number num =>
    (degConvRaw ctx base scale num).map fun rb =>
      showConv ctx rb.1 rb.2 [(chars ("°" ++ sname), 1)]
  | v => .error ("Cannot convert <" ++ v.show ++ "> to °" ++ sname)

/-- A factorization result of the external factorizer: a score and a list
of unit names (`Factors` of `factorize.rs`, outside the core). -/
abbrev Factors := ℕ × List Str

/-- `Vec::dedup`: collapse consecutive equal elements (in the equal case
dropping the head is the same as the source's dropping of the duplicate,
since the two are equal). -/
def dedupConsec {α : Type} [DecidableEq α] : List α → List α
  | [] => []
  | [a] => [a]
  | a :: b :: rest =>
    if a = b then dedupConsec (b :: rest) else a :: dedupConsec (b :: rest)

/-- The `BTreeMap<name, count>` grouping of a factorization's names
(eval.rs lines 662–665): counts per name, iterated in sorted name order. -/
def bumpCount : List (Str × ℕ) → Str → List (Str × ℕ)
  | [], name => [(name, 1)]
  | (k, c) :: rest, name =>
    if name < k then (name, 1) :: (k, c) :: rest
    else if name = k then (k, c + 1) :: rest
    else (k, c) :: bumpCount rest name

/-- Rendering of one factorization (eval.rs lines 661–675): grouped names
with `^count` when repeated, joined by single spaces. -/
def factorString (names : List Str) : String :=
  let counted := names.foldl bumpCount []
  let rendered := counted.map
    (fun p => if p.2 > 1 then strOf p.1 ++ "^" ++ toString p.2 else strOf p.1)
  match rendered with
  | [] => ""
  | first :: rest => rest.foldl (fun a x => a ++ " " ++ x) first

/-- The rendering tail of the factorize query (eval.rs lines 659–681),
applied to the sorted vector the external factorizer's heap yields:
deduplicate, render each, join with `";  "`, and append `";  ..."` exactly
when the deduplicated count is at least ten (`if len < 10`). -/
def renderFactors (sorted : List Factors) : String :=
  let deduped := dedupConsec sorted
  let results := deduped.map (fun f => factorString f.2)
  let len := results.length
  let joined :=
    match results with
    | [] => ""
    | first :: rest => rest.foldl (fun a x => a ++ ";  " ++ x) first
  "Factorizations: " ++ joined ++ (if len < 10 then "" else ";  ...")

/-- The alias-indirection chase of the definition-lookup query (eval.rs
lines 520–526): while the definition of the name is itself a bare
identifier that also has a definition, follow it.  The source's `while`
loop can cycle; fuel `definitions.length + 1` covers every acyclic chain. -/
def chaseDefs (defs : List (Str × Expr)) : ℕ → Str → Str
  | 0, name => name
  | fuel + 1, name =>
    match alookup defs name with
    | some (Expr.unit u) =>
      if (alookup defs u).isSome then chaseDefs defs fuel u else name
    | _ => name

/-- The right-hand side of a conversion query. -/
inductive Conversion where
  | cexpr (e : Expr)
  | list (names : List Str)
  | degC | degF | degN | degRe | degRo | degDe
deriving Repr

/-- A top-level query. -/
inductive Query where
  | expr (e : Expr)
  | convert (e : Expr) (c : Conversion)
  | factorize (e : Expr)
  | error (e : String)
deriving Repr

/-- The definition-lookup arm of `eval_outer` (eval.rs lines 519–530):
chase the alias chain, render `"Definition: name = expr = value"`; the
source indexes `definitions[name]` and UNWRAPS `lookup(name)`. -/
def defLookup (ctx : Context) (name : Str) : Res String :=
  let name := chaseDefs ctx.definitions (ctx.definitions.length + 1) name
  match alookup ctx.definitions name with
  | none => .panic "definitions key vanished"
  | some d =>
    match ctx.lookup name with
    | none => .panic unwrapMsg
    | some res =>
      .ok ("Definition: " ++ strOf name ++ " = " ++ exprDisplay d ++ " = "
           ++ res.show)

/-- `Context::eval_outer` (eval.rs lines 429–689), parameterized by the
external factorizer `fz` (modelled from the spec §6: it receives the value
and the alias table and yields the score-sorted vector the source obtains
from `factorize(...).into_sorted_vec()`). -/
def evalOuter (fz : Number → List (UnitV × Str) → List Factors)
    (ctx : Context) : Query → Res String
  | .expr e =>
    match e with
    | .unit name =>
      if (alookup ctx.definitions name).isSome then defLookup ctx name
      else (eval ctx (.unit name)).map Value.show
    | _ => (eval ctx e).map Value.show
  | .convert top (.cexpr bottom) =>
    match eval ctx top, eval ctx bottom, evalUnitName ctx bottom with
    | .panic e, _, _ => .panic e
    | _, .panic e, _ => .panic e
    | _, _, .panic e => .panic e
    | .ok topv, .ok botv, .ok bname =>
      match topv, botv with
      | .number t, .number b =>
        if t.u = b.u then
          match t.div b with
          | some raw => .ok (showConv ctx raw b bname)
          | none => .error ("Division by zero: " ++ t.show ++ " / " ++ b.show)
        else .error (conformanceErr ctx t b)
      | _, _ => .error "Conversion of non-numbers is not defined"
    | .error e, _, _ => .error e
    | _, .error e, _ => .error e
    | _, _, .error e => .error e
  | .convert top (.list names) =>
    (eval ctx top).bind fun topv =>
    match topv with
    | .number num =>
      (lookupUnits ctx names).bind fun units =>
      match units with
      | [] => .error "Expected non-empty unit list"
      | first :: restUnits =>
        match restUnits.find? (fun x => x.u ≠ first.u) with
        | some x =>
          .error ("Units in unit list must conform: <" ++ first.show
                  ++ "> ; <" ++ x.show ++ ">")
        | none =>
          if num.u ≠ first.u then .error (conformanceErr ctx num first)
          else
            let out := listDecompose num.q ((first :: restUnits).map Number.q)
            .ok (renderList ctx names out num.u)
    | v => .error ("Cannot convert <" ++ v.show ++ "> to " ++ listDebug names)
  | .convert top .degC =>
    (eval ctx top).bind
      (degConvert ctx "C" (chars "zerocelsius") (chars "kelvin"))
  | .convert top .degF =>
    (eval ctx top).bind
      (degConvert ctx "F" (chars "zerofahrenheit") (chars "degrankine"))
  | .convert top .degRe =>
    (eval ctx top).bind
      (degConvert ctx "Ré" (chars "zerocelsius") (chars "reaumur_absolute"))
  | .convert top .degRo =>
    (eval ctx top).bind
      (degConvert ctx "Rø" (chars "zeroromer") (chars "romer_absolute"))
  | .convert top .degDe =>
    (eval ctx top).bind
      (degConvert ctx "De" (chars "zerodelisle") (chars "delisle_absolute"))
  | .convert top .degN =>
    (eval ctx top).bind
      (degConvert ctx "N" (chars "zerocelsius") (chars "newton_absolute"))
  | .factorize e =>
    (eval ctx e).bind fun val =>
    match val with
    | .number num => .ok (renderFactors (fz num ctx.aliases))
    | v => .error ("Cannot find derivatives of <" ++ v.show ++ ">")
  | .error e => .error e

/-- A raw definition from the parsed definitions file (`Def` of `ast.rs`,
absent from `src/`; the variants are those `Context::load` consumes). -/
inductive Def where
  | dimension (dname : Str)
  | unitDef (e : Expr)
  | prefixDef (e : Expr)
  | sprefixDef (e : Expr)
  | quantity (e : Expr)
  | errorDef (msg : String)
deriving Repr

/-- The fixed reverse-SI name set of `Context::load` (eval.rs lines
855–867). -/
def reverseSet : List Str :=
  [chars "newton", chars "pascal", chars "joule", chars "watt", chars "coulomb",
   chars "volt", chars "ohm", chars "siemens", chars "farad", chars "weber",
   chars "henry", chars "tesla"]

/-- One step of the interpretation loop of `Context::load` (eval.rs lines
869–921).  Evaluation failures are load-time warnings: the context is left
unchanged (an evaluation panic, which would abort the host, is not reached
by any claim). -/
def loadStep (ctx : Context) (name : Str) (d : Def) : Context :=
  match d with
  | .dimension dname => { ctx with dimensions := ctx.dimensions ++ [dname] }
  | .unitDef e =>
    match eval ctx e with
    | .ok (.number v) =>
      let ctx1 :=
        if v.q = 1 ∧ name ∈ reverseSet then
          { ctx with reverse := ainsert ctx.reverse v.u name }
        else ctx
      { ctx1 with definitions := ainsert ctx1.definitions name e,
                  units := ainsert ctx1.units name v }
    | _ => ctx
  | .prefixDef e =>
    match eval ctx e with
    | .ok (.number v) => { ctx with prefixes := ctx.prefixes ++ [(name, v)] }
    | _ => ctx
  | .sprefixDef e =>
    match eval ctx e with
    | .ok (.number v) =>
      { ctx with prefixes := ctx.prefixes ++ [(name, v)],
                 units := ainsert ctx.units name v }
    | _ => ctx
  | .quantity e =>
    match eval ctx e with
    | .ok (.number v) =>
      let ctx1 := { ctx with aliases := ainsert ctx.aliases v.u name }
      if (alookup ctx1.definitions name).isSome then ctx1
      else { ctx1 with definitions := ainsert ctx1.definitions name e }
    | _ => ctx
  | .errorDef _ => ctx

/-- The interpretation loop of `Context::load` over the dependency-sorted
definition list (eval.rs lines 869–921). -/
def loadInterp (ctx : Context) : List (Str × Def) → Context
  | [] => ctx
  | (name, d) :: rest => loadInterp (loadStep ctx name d) rest

/-- `Context::new` (eval.rs lines 692–703), with the modelled clock. -/
def Context.new : Context :=
  { dimensions := [], units := [], aliases := [], reverse := [],
    prefixes := [], definitions := [], shortOutput := false, nowInstant := 0 }

/-- The spec's resolution ladder (§4.D), written as the ordered alternative
chain the spec enumerates — base dimension, unit table, alias value, plural
strip, prefix peel in insertion order with the first success winning — with
the recursive call abstracted.  This is the spec-side definition the
embedded `Context.lookup` is compared against. -/
def lookupSpec (ctx : Context) (rec : Str → Option Number) (name : Str) :
    Option Number :=
  (if name ∈ ctx.dimensions then some (Number.oneUnit name) else none) <|>
  alookup ctx.units name <|>
  (aliasFind ctx.aliases name).map (fun u => ⟨Number.one.q, u⟩) <|>
  (if name.getLast? = some 's' then rec name.dropLast else none) <|>
  ctx.prefixes.findSome? (fun pm =>
    if pm.1.isPrefixOf name then
      (rec (name.drop pm.1.length)).map (fun v => v.mul pm.2)
    else none)

/-- A context with every lookup feature populated, used to instantiate the
universally quantified claims: one base dimension, a direct unit, an alias,
and a peelable prefix. -/
def ctxC2 : Context :=
  { Context.new with
    dimensions := [chars "length"],
    units := [(chars "m", ⟨1, [(chars "length", 1)]⟩)],
    aliases := [([(chars "length", 1)], chars "len")],
    prefixes := [(chars "k", ⟨1000, []⟩)] }

/-- Spec-side join of rendered results with a separator (§4.H "joined"). -/
def joinedWith (sep : String) : List String → String
  | [] => ""
  | [x] => x
  | x :: y :: rest => x ++ sep ++ joinedWith sep (y :: rest)

/-- Ten pairwise distinct factorizer results, already sorted: the boundary
case of the factorize rendering. -/
def ex10 : List Factors :=
  [(0, [chars "a"]), (1, [chars "b"]), (2, [chars "c"]), (3, [chars "d"]),
   (4, [chars "e"]), (5, [chars "f"]), (6, [chars "g"]), (7, [chars "h"]),
   (8, [chars "i"]), (9, [chars "j"])]

/-- Two Quantity definitions evaluating to the same unit vector: the second
one's alias entry overwrites the first's (the "conflicting quantities"
warning of the loader). -/
def defsC10 : List (Str × Def) :=
  [(chars "q1", Def.quantity (.quote (chars "len"))),
   (chars "q2", Def.quantity (.quote (chars "len")))]

/-- The environment the interpretation loop produces from `defsC10` in the
listed order (the loader's dependency sort emits these two independent
entries in one of the two orders; see `ctx10r` for the other). -/
def ctx10 : Context := loadInterp Context.new defsC10

/-- The environment produced from the reversed order. -/
def ctx10r : Context := loadInterp Context.new defsC10.reverse

/-- The shared unit vector of the temperature constants in the witness
environment. -/
def tempV : UnitV := [(chars "temperature", 1)]

/-- A witness environment carrying the zero constants and scale units of
all six temperature scales (integer magnitudes; any nonzero scales work). -/
def ctxTemp : Context :=
  { Context.new with
    units :=
      [(chars "kelvin", ⟨2, tempV⟩),
       (chars "degrankine", ⟨3, tempV⟩),
       (chars "reaumur_absolute", ⟨4, tempV⟩),
       (chars "romer_absolute", ⟨5, tempV⟩),
       (chars "delisle_absolute", ⟨6, tempV⟩),
       (chars "newton_absolute", ⟨7, tempV⟩),
       (chars "zerocelsius", ⟨11, tempV⟩),
       (chars "zerofahrenheit", ⟨13, tempV⟩),
       (chars "zeroromer", ⟨17, tempV⟩),
       (chars "zerodelisle", ⟨19, tempV⟩)] }

/-- A context on which C7's unconditional laws fail: "kg" is a base
dimension shadowing prefix "k" on unit "g", and "as" is a base dimension
shadowing the plural of unit "a". -/
def ctxC7 : Context :=
  { Context.new with
    dimensions := [chars "kg", chars "as"],
    units := [(chars "g", ⟨1, [(chars "mass", 1)]⟩),
              (chars "a", ⟨7, [(chars "alen", 1)]⟩)],
    prefixes := [(chars "k", ⟨1000, []⟩)] }

/-- A context whose unit table stores a number with an even unit vector,
for exercising the sqrt call. -/
def ctxC8 : Context :=
  { Context.new with
    units := [(chars "m2", ⟨4, [(chars "m", 2)]⟩)] }

theorem uget_eq_zero_of_forall_lt {u : UnitV} {k : Str}
    (h : ∀ p ∈ u, k < p.1) : uget u k = 0 := by
  induction u with
  | nil => rfl
  | cons hd tl ih =>
    have hk : k < hd.1 := h hd (by simp)
    obtain ⟨k', v'⟩ := hd
    simp only [uget, if_neg (ne_of_lt hk)]
    exact ih (fun p hp => h p (by simp [hp]))

theorem ucanon_cons {k : Str} {v : Int} {rest : UnitV}
    (h : UCanon ((k, v) :: rest)) :
    (∀ p ∈ rest, k < p.1) ∧ v ≠ 0 ∧ UCanon rest := by
  obtain ⟨hs, hz⟩ := h
  rw [List.pairwise_cons] at hs
  exact ⟨fun p hp => hs.1 p hp, hz (k, v) (by simp),
    ⟨hs.2, fun p hp => hz p (by simp [hp])⟩⟩

theorem mem_uinsertAdd {m : UnitV} {k : Str} {dv : Int} {p : Str × Int}
    (hp : p ∈ uinsertAdd k dv m) : p.1 = k ∨ p ∈ m := by
  induction m with
  | nil =>
    by_cases h0 : dv = 0 <;> simp [uinsertAdd, h0] at hp
    · left; rw [hp]
  | cons hd rest ih =>
    obtain ⟨k', v'⟩ := hd
    by_cases h1 : k < k'
    · by_cases h0 : dv = 0
      · simp only [uinsertAdd, if_pos h1, if_pos h0] at hp
        right; exact hp
      · simp only [uinsertAdd, if_pos h1, if_neg h0] at hp
        rcases List.mem_cons.mp hp with h | h
        · left; rw [h]
        · right; exact h
    · by_cases h2 : k = k'
      · subst h2
        by_cases h0 : v' + dv = 0
        · simp only [uinsertAdd, if_neg h1, if_pos rfl, if_pos h0] at hp
          right; exact List.mem_cons.mpr (Or.inr hp)
        · simp only [uinsertAdd, if_neg h1, if_pos rfl, if_neg h0] at hp
          rcases List.mem_cons.mp hp with h | h
          · left; rw [h]
          · right; exact List.mem_cons.mpr (Or.inr h)
      · simp only [uinsertAdd, if_neg h1, if_neg h2] at hp
        rcases List.mem_cons.mp hp with h | h
        · right; rw [h]; exact List.mem_cons.mpr (Or.inl rfl)
        · rcases ih h with h | h
          · left; exact h
          · right; exact List.mem_cons.mpr (Or.inr h)

theorem ucanon_uinsertAdd {m : UnitV} {k : Str} {dv : Int}
    (hm : UCanon m) : UCanon (uinsertAdd k dv m) := by
  induction m with
  | nil =>
    by_cases h : dv = 0 <;>
      simp [uinsertAdd, h, UCanon]
  | cons hd rest ih =>
    obtain ⟨k', v'⟩ := hd
    obtain ⟨hlt, hv', hrest⟩ := ucanon_cons hm
    by_cases h1 : k < k'
    · by_cases h0 : dv = 0
      · simpa [uinsertAdd, h1, h0] using hm
      · refine ⟨?_, ?_⟩
        · simp only [uinsertAdd, if_pos h1, if_neg h0]
          exact List.pairwise_cons.mpr
            ⟨by
              intro p hp
              rcases List.mem_cons.mp hp with h | h
              · subst h; exact h1
              · exact lt_trans h1 (hlt p h), hm.1⟩
        · intro p hp
          simp only [uinsertAdd, if_pos h1, if_neg h0] at hp
          rcases List.mem_cons.mp hp with h | h
          · subst h; exact h0
          · exact hm.2 p h
    · by_cases h2 : k = k'
      · subst h2
        by_cases h0 : v' + dv = 0
        · simpa [uinsertAdd, h1, h0] using hrest
        · refine ⟨?_, ?_⟩
          · simp only [uinsertAdd, if_neg h1, if_pos rfl, if_neg h0]
            exact List.pairwise_cons.mpr ⟨hlt, hrest.1⟩
          · intro p hp
            simp only [uinsertAdd, if_neg h1, if_pos rfl, if_neg h0] at hp
            rcases List.mem_cons.mp hp with h | h
            · subst h; exact h0
            · exact hrest.2 p h
      · have hgt : k' < k := by
          rcases lt_trichotomy k k' with h | h | h
          · exact absurd h h1
          · exact absurd h h2
          · exact h
        refine ⟨?_, ?_⟩
        · simp only [uinsertAdd, if_neg h1, if_neg h2]
          refine List.pairwise_cons.mpr ⟨?_, (ih hrest).1⟩
          intro p hp
          rcases mem_uinsertAdd hp with h | h
          · rw [h]; exact hgt
          · exact hlt p h
        · intro p hp
          simp only [uinsertAdd, if_neg h1, if_neg h2] at hp
          rcases List.mem_cons.mp hp with h | h
          · subst h; exact hv'
          · exact (ih hrest).2 p h

theorem uget_uinsertAdd {m : UnitV} (hm : UCanon m) (k : Str) (dv : Int)
    (key : Str) :
    uget (uinsertAdd k dv m) key =
      if key = k then uget m key + dv else uget m key := by
  induction m with
  | nil =>
    by_cases h0 : dv = 0
    · by_cases hk : key = k <;> simp [uinsertAdd, uget, h0, hk]
    · by_cases hk : key = k <;> simp [uinsertAdd, uget, h0, hk]
  | cons hd rest ih =>
    obtain ⟨k', v'⟩ := hd
    obtain ⟨hlt, hv', hrest⟩ := ucanon_cons hm
    by_cases h1 : k < k'
    · have hm0 : uget ((k', v') :: rest) k = 0 :=
        uget_eq_zero_of_forall_lt (by
          intro p hp
          rcases List.mem_cons.mp hp with h | h
          · rw [h]; exact h1
          · exact lt_trans h1 (hlt p h))
      by_cases h0 : dv = 0
      · by_cases hk : key = k <;> simp [uinsertAdd, h1, h0, hk]
      · simp only [uinsertAdd, if_pos h1, if_neg h0]
        by_cases hk : key = k
        · subst hk; rw [if_pos rfl, hm0]; simp [uget]
        · simp [uget, hk]
    · by_cases h2 : k = k'
      · subst h2
        have hr0 : uget rest k = 0 := uget_eq_zero_of_forall_lt hlt
        by_cases h0 : v' + dv = 0
        · simp only [uinsertAdd, if_neg h1, if_pos rfl, if_pos h0]
          by_cases hk : key = k
          · subst hk; simp [uget, hr0]; omega
          · simp [uget, hk]
        · simp only [uinsertAdd, if_neg h1, if_pos rfl, if_neg h0]
          by_cases hk : key = k
          · subst hk; simp [uget]
          · simp [uget, hk]
      · have hne : ¬ k = k' := h2
        simp only [uinsertAdd, if_neg h1, if_neg hne]
        by_cases hk : key = k'
        · subst hk
          have : ¬ key = k := fun h => h2 h.symm
          simp [uget, this, ih hrest]
        · simp [uget, hk, ih hrest]

theorem ucanon_umerge {u v : UnitV} (hu : UCanon u) (hv : UCanon v) :
    UCanon (umerge u v) := by
  induction u with
  | nil => exact hv
  | cons hd tl ih =>
    obtain ⟨-, -, htl⟩ := ucanon_cons hu
    exact ucanon_uinsertAdd (ih htl)

theorem uget_umerge {u v : UnitV} (hu : UCanon u) (hv : UCanon v)
    (key : Str) : uget (umerge u v) key = uget u key + uget v key := by
  induction u with
  | nil => simp [umerge, uget]
  | cons hd tl ih =>
    obtain ⟨hlt, hnz, htl⟩ := ucanon_cons hu
    obtain ⟨k, dv⟩ := hd
    have hmergetl : UCanon (umerge tl v) := ucanon_umerge htl hv
    have : umerge ((k, dv) :: tl) v = uinsertAdd k dv (umerge tl v) := rfl
    rw [this, uget_uinsertAdd hmergetl, ih htl]
    by_cases hk : key = k
    · subst hk
      have : uget tl key = 0 := uget_eq_zero_of_forall_lt hlt
      simp [uget, this]; omega
    · simp [uget, hk]

theorem uget_uneg (u : UnitV) (key : Str) : uget (uneg u) key = -uget u key := by
  induction u with
  | nil => simp [uneg, uget]
  | cons hd tl ih =>
    obtain ⟨k, v⟩ := hd
    by_cases hk : key = k
    · simp [uneg, uget, hk]
    · simp only [uneg, List.map_cons, uget, if_neg hk] at ih ⊢
      simp [ih, uneg]

theorem ucanon_uneg {u : UnitV} (hu : UCanon u) : UCanon (uneg u) := by
  constructor
  · have := hu.1
    unfold uneg
    exact (List.pairwise_map).mpr (by simpa using this)
  · intro p hp
    unfold uneg at hp
    rcases List.mem_map.mp hp with ⟨q, hq, rfl⟩
    simpa using hu.2 q hq

theorem uext {u v : UnitV} (hu : UCanon u) (hv : UCanon v)
    (h : ∀ k, uget u k = uget v k) : u = v := by
  induction u generalizing v with
  | nil =>
    cases v with
    | nil => rfl
    | cons hd tl =>
      obtain ⟨k, vv⟩ := hd
      obtain ⟨-, hnz, -⟩ := ucanon_cons hv
      have := h k
      simp [uget] at this
      exact absurd this.symm hnz
  | cons hd tl ih =>
    obtain ⟨k, vv⟩ := hd
    obtain ⟨hlt, hnz, htl⟩ := ucanon_cons hu
    cases v with
    | nil =>
      have := h k
      simp [uget] at this
      exact absurd this hnz
    | cons hd₂ tl₂ =>
      obtain ⟨k₂, v₂⟩ := hd₂
      obtain ⟨hlt₂, hnz₂, htl₂⟩ := ucanon_cons hv
      have hkk : k = k₂ := by
        rcases lt_trichotomy k k₂ with hc | hc | hc
        · exfalso
          have h1 := h k
          have h2 : uget ((k₂, v₂) :: tl₂) k = 0 :=
            uget_eq_zero_of_forall_lt (by
              intro p hp
              rcases List.mem_cons.mp hp with hh | hh
              · rw [hh]; exact hc
              · exact lt_trans hc (hlt₂ p hh))
          rw [h2] at h1
          simp [uget] at h1
          exact hnz h1
        · exact hc
        · exfalso
          have h1 := h k₂
          have h2 : uget ((k, vv) :: tl) k₂ = 0 :=
            uget_eq_zero_of_forall_lt (by
              intro p hp
              rcases List.mem_cons.mp hp with hh | hh
              · rw [hh]; exact hc
              · exact lt_trans hc (hlt p hh))
          rw [h2] at h1
          simp [uget] at h1
          exact hnz₂ h1.symm
      subst hkk
      have hvv : vv = v₂ := by
        have := h k
        simpa [uget] using this
      subst hvv
      congr 1
      refine ih htl htl₂ ?_
      intro key
      by_cases hk : key = k
      · subst hk
        rw [uget_eq_zero_of_forall_lt hlt, uget_eq_zero_of_forall_lt hlt₂]
      · have := h key
        simpa [uget, hk] using this

theorem umerge_comm {u v : UnitV} (hu : UCanon u) (hv : UCanon v) :
    umerge u v = umerge v u := by
  refine uext (ucanon_umerge hu hv) (ucanon_umerge hv hu) ?_
  intro k
  rw [uget_umerge hu hv, uget_umerge hv hu, Int.add_comm]

theorem umerge_uneg_self {u : UnitV} (hu : UCanon u) : umerge u (uneg u) = [] := by
  refine uext (ucanon_umerge hu (ucanon_uneg hu)) ⟨List.Pairwise.nil, by simp⟩ ?_
  intro k
  rw [uget_umerge hu (ucanon_uneg hu), uget_uneg]
  simp [uget]

theorem Number.mul_comm {a b : Number} (ha : UCanon a.u) (hb : UCanon b.u) :
    a.mul b = b.mul a := by
  unfold Number.mul
  rw [Rat.mul_comm, umerge_comm ha hb]

theorem peelPre_congr {rec₁ rec₂ : Str → Option Number} {name : Str}
    {l : List (Str × Number)} (hl : ∀ p ∈ l, p.1 ≠ ([] : Str))
    (h : ∀ s : Str, s.length < name.length → rec₁ s = rec₂ s) :
    peelPre rec₁ name l = peelPre rec₂ name l := by
  induction l with
  | nil => rfl
  | cons hd tl ih =>
    obtain ⟨pre, value⟩ := hd
    have htl : ∀ p ∈ tl, p.1 ≠ ([] : Str) := fun p hp => hl p (by simp [hp])
    simp only [peelPre]
    split
    case isTrue hp =>
      have hpre : pre ≠ ([] : Str) := hl (pre, value) (by simp)
      have hle : pre.length ≤ name.length :=
        (List.isPrefixOf_iff_prefix.mp hp).length_le
      have hpos : 0 < pre.length := List.length_pos.mpr hpre
      have hdrop : (name.drop pre.length).length < name.length := by
        rw [List.length_drop]
        omega
      rw [h _ hdrop]
      cases rec₂ (name.drop pre.length) with
      | some v => rfl
      | none => exact ih htl
    case isFalse => exact ih htl

theorem lookupBody_congr {ctx : Context} {rec₁ rec₂ : Str → Option Number}
    {name : Str} (hpre : ∀ p ∈ ctx.prefixes, p.1 ≠ ([] : Str))
    (h : ∀ s : Str, s.length < name.length → rec₁ s = rec₂ s) :
    lookupBody ctx rec₁ name = lookupBody ctx rec₂ name := by
  have hplural :
      (if name.getLast? = some 's' then rec₁ name.dropLast else none) =
        (if name.getLast? = some 's' then rec₂ name.dropLast else none) := by
    split
    case isTrue hlast =>
      have hne : name ≠ [] := by
        intro hnil
        rw [hnil] at hlast
        simp at hlast
      have : name.dropLast.length < name.length := by
        rw [List.length_dropLast]
        have := List.length_pos.mpr hne
        omega
      rw [h _ this]
    case isFalse => rfl
  have hpeel : peelPre rec₁ name ctx.prefixes = peelPre rec₂ name ctx.prefixes :=
    peelPre_congr hpre h
  unfold lookupBody
  rw [hplural, hpeel]

theorem lookupAux_congr {ctx : Context}
    (hpre : ∀ p ∈ ctx.prefixes, p.1 ≠ ([] : Str)) :
    ∀ f₁ f₂ name, name.length < f₁ → name.length < f₂ →
      lookupAux ctx f₁ name = lookupAux ctx f₂ name := by
  intro f₁
  induction f₁ with
  | zero => exact fun f₂ name h₁ _ => absurd h₁ (Nat.not_lt_zero _)
  | succ a ih =>
    intro f₂ name h₁ h₂
    cases f₂ with
    | zero => exact absurd h₂ (Nat.not_lt_zero _)
    | succ b =>
      show lookupBody ctx (lookupAux ctx a) name
        = lookupBody ctx (lookupAux ctx b) name
      refine lookupBody_congr hpre ?_
      intro s hs
      have ha : s.length < a := lt_of_lt_of_le hs (Nat.lt_succ_iff.mp h₁)
      have hb : s.length < b := lt_of_lt_of_le hs (Nat.lt_succ_iff.mp h₂)
      exact ih b s ha hb

theorem lookup_fix (ctx : Context)
    (hpre : ∀ p ∈ ctx.prefixes, p.1 ≠ ([] : Str)) (name : Str) :
    ctx.lookup name = lookupBody ctx ctx.lookup name := by
  show lookupBody ctx (lookupAux ctx name.length) name
    = lookupBody ctx ctx.lookup name
  refine lookupBody_congr hpre ?_
  intro s hs
  show lookupAux ctx name.length s = lookupAux ctx (s.length + 1) s
  exact lookupAux_congr hpre name.length (s.length + 1) s hs (Nat.lt_succ_self _)

theorem peelPre_eq_findSome (rec : Str → Option Number) (name : Str)
    (l : List (Str × Number)) :
    peelPre rec name l = l.findSome? (fun pm =>
      if pm.1.isPrefixOf name then
        (rec (name.drop pm.1.length)).map (fun v => v.mul pm.2)
      else none) := by
  induction l with
  | nil => rfl
  | cons hd tl ih =>
    obtain ⟨pre, value⟩ := hd
    simp only [peelPre, List.findSome?_cons]
    by_cases hp : pre.isPrefixOf name
    · simp only [if_pos hp]
      cases rec (name.drop pre.length) with
      | some v => simp
      | none => simpa using ih
    · simp only [if_neg hp]
      simpa using ih

theorem lookupBody_eq_spec (ctx : Context) (rec : Str → Option Number)
    (name : Str) : lookupBody ctx rec name = lookupSpec ctx rec name := by
  unfold lookupBody lookupSpec
  rw [← peelPre_eq_findSome]
  by_cases h1 : name ∈ ctx.dimensions
  · simp [h1]
  · simp only [if_neg h1, Option.none_orElse]
    cases h2 : alookup ctx.units name with
    | some v => simp
    | none =>
      simp only [Option.none_orElse]
      cases h3 : aliasFind ctx.aliases name with
      | some u => simp
      | none =>
        simp only [Option.map_none', Option.none_orElse]
        cases h4 : (if name.getLast? = some 's' then rec name.dropLast else none) with
        | some v => simp
        | none => simp

theorem peelPre_first {rec : Str → Option Number} {name : Str}
    {l₁ l₂ : List (Str × Number)} {p : Str} {m r : Number}
    (hskip : ∀ q ∈ l₁, q.1.isPrefixOf name = true →
      rec (name.drop q.1.length) = none)
    (hp : p.isPrefixOf name = true) (hr : rec (name.drop p.length) = some r) :
    peelPre rec name (l₁ ++ (p, m) :: l₂) = some (r.mul m) := by
  induction l₁ with
  | nil => simp [peelPre, hp, hr]
  | cons q tl ih =>
    obtain ⟨qp, qm⟩ := q
    simp only [List.cons_append, peelPre]
    split
    case isTrue hq =>
      rw [hskip (qp, qm) (by simp) hq]
      exact ih (fun q hq' => hskip q (by simp [hq']))
    case isFalse =>
      exact ih (fun q hq' => hskip q (by simp [hq']))

/-- C2: for every name and every environment whose prefixes are non-empty
strings (with an empty prefix the source's recursion itself diverges),
`Context::lookup` computes exactly the spec's ladder in its fixed order —
(1) exact base-dimension match giving magnitude 1 at exponent 1, (2) the
unit table, (3) alias values giving magnitude 1 with the aliased vector,
(4) stripping one trailing "s" and recursing, (5) peeling each prefix in
insertion order, recursing on the remainder and multiplying by the prefix
magnitude, the first resolving prefix winning — and returns `none` only
when every step fails. -/
theorem c2_lookup_fixed_order (ctx : Context)
    (hpre : ∀ p ∈ ctx.prefixes, p.1 ≠ ([] : Str)) (name : Str) :
    ctx.lookup name = lookupSpec ctx ctx.lookup name :=
  (lookup_fix ctx hpre name).trans (lookupBody_eq_spec ctx ctx.lookup name)

/-- Witness for C2 at a concrete environment and the name "kms", which
resolves through plural stripping followed by prefix peeling. -/
theorem c2_lookup_fixed_order_witness :
    (∀ p ∈ ctxC2.prefixes, p.1 ≠ ([] : Str)) ∧
      ctxC2.lookup (chars "kms") = lookupSpec ctxC2 ctxC2.lookup (chars "kms") :=
  ⟨by decide, c2_lookup_fixed_order ctxC2 (by decide) (chars "kms")⟩

/-- C1: for operands evaluating to dimensioned numbers, `a + b` succeeds
with the shared unit vector when the vectors are identical, and fails with
the "mismatched units" error carrying the rendered left and right operands
and the `+` symbol when they differ. -/
theorem c1_add_units (ctx : Context) (a b : Expr) (l r : Number)
    (ha : eval ctx a = .ok (.number l)) (hb : eval ctx b = .ok (.number r)) :
    (l.u = r.u → eval ctx (.add a b) = .ok (.number ⟨l.q + r.q, l.u⟩)) ∧
    (l.u ≠ r.u → eval ctx (.add a b) =
      .error ("Addition of units with mismatched units is not meaningful"
        ++ ": <" ++ l.show ++ "> + <" ++ r.show ++ ">")) := by
  constructor
  · intro hu
    simp [eval, ha, hb, Res.bind, Value.vadd, Number.add, hu]
  · intro hu
    simp [eval, ha, hb, Res.bind, Value.vadd, Number.add, hu, Value.show]

/-- Witness for C1: a matching and a mismatching concrete addition of
quoted units in the empty environment. -/
theorem c1_add_units_witness :
    eval Context.new (.add (.quote (chars "m")) (.quote (chars "m")))
      = .ok (.number ⟨1 + 1, [(chars "m", 1)]⟩) ∧
    eval Context.new (.add (.quote (chars "m")) (.quote (chars "s")))
      = .error ("Addition of units with mismatched units is not meaningful"
        ++ ": <" ++ Number.show ⟨1, [(chars "m", 1)]⟩
        ++ "> + <" ++ Number.show ⟨1, [(chars "s", 1)]⟩ ++ ">") :=
  ⟨(c1_add_units Context.new (.quote (chars "m")) (.quote (chars "m"))
      ⟨1, [(chars "m", 1)]⟩ ⟨1, [(chars "m", 1)]⟩ rfl rfl).1 rfl,
   (c1_add_units Context.new (.quote (chars "m")) (.quote (chars "s"))
      ⟨1, [(chars "m", 1)]⟩ ⟨1, [(chars "s", 1)]⟩ rfl rfl).2 (by decide)⟩

/-- C5: the subtraction dispatch as the code implements it.  `Num − Date`
is NOT an error: the or-pattern of `Sub for &Value` makes it subtract the
number (as a duration) from the timestamp, exactly like `Date − Num`;
`Date − Date` yields the duration as a dimensioned number in seconds.  The
first conjunct evaluates the code at the claim's failing input. -/
theorem c5_sub_dispatch :
    eval Context.new (.sub (.quote (chars "s")) (.date 100)) = .ok (.datetime 99) ∧
    eval Context.new (.sub (.date 100) (.quote (chars "s"))) = .ok (.datetime 99) ∧
    eval Context.new (.sub (.date 100) (.date 40)) = .ok (.number ⟨60, secondV⟩) := by
  refine ⟨?_, ?_, ?_⟩ <;>
    · simp [eval, Res.bind, Value.vsub, toDuration, secondV, checkedSub,
        fromDuration, Number.sub, chars, Res.map, Number.oneUnit]
      norm_num

/-- C6: a multiplication with a timestamp operand does NOT surface as a
user-visible error: the `.unwrap()` in the fold of `Expr::Mul` turns the
"Operation is not defined" error of `Mul for &Value` into a host panic
(the source's own TODO comment acknowledges the failure). -/
theorem c6_mul_datetime_panics :
    eval Context.new (.mul [.date 5, .quote (chars "a")])
      = .panic "Operation is not defined" := by decide

theorem foldl_join (sep : String) (rest : List String) (first : String) :
    rest.foldl (fun a x => a ++ sep ++ x) first = joinedWith sep (first :: rest) := by
  induction rest generalizing first with
  | nil => rfl
  | cons y tl ih =>
    rw [List.foldl_cons, ih (first ++ sep ++ y)]
    cases tl with
    | nil => simp [joinedWith]
    | cons z tl' => simp [joinedWith, String.append_assoc]

/-- Counterexample for C9: with exactly ten (deduplicated) factorizer
results — not more than ten — the rendering still appends ";  ...", because
the source tests `len < 10`, not `len <= 10`. -/
theorem c9_counterexample :
    (dedupConsec ex10).length = 10 ∧
    renderFactors ex10 =
      "Factorizations: a;  b;  c;  d;  e;  f;  g;  h;  i;  j;  ..." := by
  decide

/-- C9 (amended): the deduplicated results are rendered joined with ";  ",
and the suffix ";  ..." is appended exactly when TEN OR MORE deduplicated
results exist (the source's `len < 10` test), not "more than ten". -/
theorem c9_factorize_rendering (rs : List Factors) :
    renderFactors rs =
      "Factorizations: "
        ++ joinedWith ";  " ((dedupConsec rs).map (fun f => factorString f.2))
        ++ (if 10 ≤ (dedupConsec rs).length then ";  ..." else "") := by
  unfold renderFactors
  cases h : (dedupConsec rs).map (fun f => factorString f.2) with
  | nil =>
    have hlen : (dedupConsec rs).length = 0 := by
      have := congrArg List.length h
      simpa using this
    simp [h, hlen, joinedWith]
  | cons first rest =>
    have hlen : (dedupConsec rs).length = rest.length + 1 := by
      have := congrArg List.length h
      simpa using this
    simp only [h, hlen, foldl_join, List.length_cons]
    by_cases h10 : 10 ≤ rest.length + 1
    · rw [if_neg (by omega), if_pos h10]
    · rw [if_pos (by omega), if_neg h10]

/-- C3: the list-conversion emission loop on a source magnitude and the
(nonzero) magnitudes of a compatible unit list: it emits one value per
unit, every value but the last is an integer (the floored multiple that is
then subtracted from the residue), and the emitted values recompose the
source magnitude exactly: Σᵢ vᵢ·mᵢ = q₀ as rationals. -/
theorem c3_list_decomposition_preserves_value (q0 : ℚ) (mags : List ℚ)
    (hne : mags ≠ []) (hnz : ∀ m ∈ mags, m ≠ 0) :
    (listDecompose q0 mags).length = mags.length ∧
    (∀ v ∈ (listDecompose q0 mags).dropLast, v.den = 1) ∧
    (List.zipWith (fun v m => v * m) (listDecompose q0 mags) mags).sum = q0 := by
  induction mags generalizing q0 with
  | nil => exact absurd rfl hne
  | cons m rest ih =>
    have hm : m ≠ 0 := hnz m (by simp)
    cases rest with
    | nil =>
      refine ⟨rfl, by simp [listDecompose], ?_⟩
      simp only [listDecompose, List.isEmpty_nil, if_true, List.zipWith_cons_cons,
        List.zipWith_nil_right, List.sum_cons, List.sum_nil, add_zero]
      exact div_mul_cancel₀ q0 hm
    | cons r rs =>
      have hrest : (r :: rs) ≠ ([] : List ℚ) := by simp
      have hnz' : ∀ x ∈ r :: rs, x ≠ 0 := fun x hx => hnz x (by simp [hx])
      have hstep : listDecompose q0 (m :: r :: rs)
          = ((Int.fdiv (q0 / m).num (q0 / m).den : ℤ) : ℚ)
            :: listDecompose
                (q0 - m * ((Int.fdiv (q0 / m).num (q0 / m).den : ℤ) : ℚ))
                (r :: rs) := by
        simp [listDecompose]
      obtain ⟨ihlen, ihden, ihsum⟩ :=
        ih (q0 - m * ((Int.fdiv (q0 / m).num (q0 / m).den : ℤ) : ℚ)) hrest hnz'
      have hLne : listDecompose
          (q0 - m * ((Int.fdiv (q0 / m).num (q0 / m).den : ℤ) : ℚ))
          (r :: rs) ≠ [] := by
        intro hnil
        rw [hnil] at ihlen
        simp at ihlen
      refine ⟨?_, ?_, ?_⟩
      · rw [hstep]
        simp [ihlen]
      · rw [hstep, List.dropLast_cons_of_ne_nil hLne]
        intro v hv
        rcases List.mem_cons.mp hv with h | h
        · rw [h]
          exact Rat.den_intCast _
        · exact ihden v h
      · rw [hstep]
        simp only [List.zipWith_cons_cons, List.sum_cons, ihsum]
        ring

/-- Witness for C3: decomposing 5 over magnitudes [1, 1/2]. -/
theorem c3_list_decomposition_preserves_value_witness :
    (([1, (1 : ℚ)/2] : List ℚ) ≠ []) ∧ (∀ m ∈ ([1, (1 : ℚ)/2] : List ℚ), m ≠ 0) ∧
    ((listDecompose 5 [1, (1 : ℚ)/2]).length = 2 ∧
      (∀ v ∈ (listDecompose 5 [1, (1 : ℚ)/2]).dropLast, v.den = 1) ∧
      (List.zipWith (fun v m => v * m) (listDecompose 5 [1, (1 : ℚ)/2])
        [1, (1 : ℚ)/2]).sum = 5) :=
  ⟨by simp, by norm_num,
   c3_list_decomposition_preserves_value 5 [1, (1 : ℚ)/2] (by simp) (by norm_num)⟩

/-- C4: the temperature round trip.  Applying suffix S to a dimensionless x
multiplies by S's scale unit and adds S's zero constant; converting the
result to scale T subtracts T's zero constant and divides by T's scale
unit, yielding a dimensionless value; re-applying suffix T restores the
intermediate number exactly, and converting back to scale S yields exactly
x — for every pair of scales, whenever the four named constants resolve in
the environment to numbers on a common (canonical) unit vector with nonzero
scale magnitudes. -/
theorem c4_temperature_round_trip (S T : SuffixOp) (ctx : Context)
    (zS sS zT sT : Number) (V : UnitV) (hV : UCanon V)
    (hzS : ctx.lookup (suffixBase S) = some zS)
    (hsS : ctx.lookup (suffixScale S) = some sS)
    (hzT : ctx.lookup (suffixBase T) = some zT)
    (hsT : ctx.lookup (suffixScale T) = some sT)
    (huzS : zS.u = V) (husS : sS.u = V) (huzT : zT.u = V) (husT : sT.u = V)
    (hnS : sS.q ≠ 0) (hnT : sT.q ≠ 0) (x : ℚ) :
    tempSuffix ctx (suffixName S) (suffixBase S) (suffixScale S)
        (.number ⟨x, []⟩) = .ok (.number ⟨x * sS.q + zS.q, V⟩) ∧
    degConvRaw ctx (suffixBase T) (suffixScale T) ⟨x * sS.q + zS.q, V⟩
        = .ok (⟨(x * sS.q + zS.q - zT.q) / sT.q, []⟩, sT) ∧
    tempSuffix ctx (suffixName T) (suffixBase T) (suffixScale T)
        (.number ⟨(x * sS.q + zS.q - zT.q) / sT.q, []⟩)
        = .ok (.number ⟨x * sS.q + zS.q, V⟩) ∧
    degConvRaw ctx (suffixBase S) (suffixScale S) ⟨x * sS.q + zS.q, V⟩
        = .ok (⟨x, []⟩, sS) := by
  have harith1 : (x * sS.q + zS.q - zT.q) / sT.q * sT.q + zT.q
      = x * sS.q + zS.q := by
    field_simp
  have harith2 : (x * sS.q + zS.q - zS.q) / sS.q = x := by
    field_simp
  have hsubT : (⟨x * sS.q + zS.q, V⟩ : Number).sub zT
      = some ⟨x * sS.q + zS.q - zT.q, V⟩ := by
    simp [Number.sub, huzT]
  have hsubS : (⟨x * sS.q + zS.q, V⟩ : Number).sub zS
      = some ⟨x * sS.q + zS.q - zS.q, V⟩ := by
    simp [Number.sub, huzS]
  have hdivT : (⟨x * sS.q + zS.q - zT.q, V⟩ : Number).div sT
      = some ⟨(x * sS.q + zS.q - zT.q) / sT.q, []⟩ := by
    unfold Number.div
    rw [if_neg hnT, husT, umerge_uneg_self hV]
  have hdivS : (⟨x * sS.q + zS.q - zS.q, V⟩ : Number).div sS
      = some ⟨x, []⟩ := by
    unfold Number.div
    rw [if_neg hnS, husS, umerge_uneg_self hV, harith2]
  refine ⟨?_, ?_, ?_, ?_⟩
  · simp only [tempSuffix, hsS, hzS]
    simp [Number.mul, umerge, Number.add, husS, huzS]
  · unfold degConvRaw
    simp only [hsT, hzT]
    rw [if_neg (by simp [husT])]
    simp only [hsubT, hdivT]
  · simp only [tempSuffix, hsT, hzT]
    simp [Number.mul, umerge, Number.add, husT, huzT, harith1]
  · unfold degConvRaw
    simp only [hsS, hzS]
    rw [if_neg (by simp [husS])]
    simp only [hsubS, hdivS]

/-- Witness for C4 at scales C and F in a concrete environment. -/
theorem c4_temperature_round_trip_witness :
    ctxTemp.lookup (suffixBase .celsius) = some ⟨11, tempV⟩ ∧
    ctxTemp.lookup (suffixScale .celsius) = some ⟨2, tempV⟩ ∧
    ctxTemp.lookup (suffixBase .fahrenheit) = some ⟨13, tempV⟩ ∧
    ctxTemp.lookup (suffixScale .fahrenheit) = some ⟨3, tempV⟩ ∧
    (tempSuffix ctxTemp (suffixName .celsius) (suffixBase .celsius)
        (suffixScale .celsius) (.number ⟨(21 : ℚ), []⟩)
        = .ok (.number ⟨(21 : ℚ) * 2 + 11, tempV⟩) ∧
      degConvRaw ctxTemp (suffixBase .fahrenheit) (suffixScale .fahrenheit)
        ⟨(21 : ℚ) * 2 + 11, tempV⟩
        = .ok (⟨((21 : ℚ) * 2 + 11 - 13) / 3, []⟩, ⟨3, tempV⟩) ∧
      tempSuffix ctxTemp (suffixName .fahrenheit) (suffixBase .fahrenheit)
        (suffixScale .fahrenheit) (.number ⟨((21 : ℚ) * 2 + 11 - 13) / 3, []⟩)
        = .ok (.number ⟨(21 : ℚ) * 2 + 11, tempV⟩) ∧
      degConvRaw ctxTemp (suffixBase .celsius) (suffixScale .celsius)
        ⟨(21 : ℚ) * 2 + 11, tempV⟩
        = .ok (⟨(21 : ℚ), []⟩, ⟨2, tempV⟩)) :=
  ⟨by decide, by decide, by decide, by decide,
   c4_temperature_round_trip .celsius .fahrenheit ctxTemp
     ⟨11, tempV⟩ ⟨2, tempV⟩ ⟨13, tempV⟩ ⟨3, tempV⟩ tempV (by decide)
     (by decide) (by decide) (by decide) (by decide)
     rfl rfl rfl rfl (by norm_num) (by norm_num) 21⟩

/-- Counterexample for C7: in `ctxC7` the prefix "k" has magnitude 1000 and
unit "g" resolves, yet lookup("kg") is the base dimension "kg" (step 1
shadows prefix peeling), not 1000·lookup("g"); and unit "a" (no trailing
"s") resolves, yet lookup("as") is the base dimension "as", not
lookup("a"). -/
theorem c7_counterexample :
    ((chars "k", (⟨1000, []⟩ : Number)) ∈ ctxC7.prefixes ∧
      ctxC7.lookup (chars "g") = some ⟨1, [(chars "mass", 1)]⟩ ∧
      ctxC7.lookup (chars "kg") = some ⟨1, [(chars "kg", 1)]⟩ ∧
      ctxC7.lookup (chars "kg")
        ≠ some ((⟨1000, []⟩ : Number).mul ⟨1, [(chars "mass", 1)]⟩)) ∧
    (ctxC7.lookup (chars "a") = some ⟨7, [(chars "alen", 1)]⟩ ∧
      ctxC7.lookup (chars "as") = some ⟨1, [(chars "as", 1)]⟩ ∧
      ctxC7.lookup (chars "as") ≠ ctxC7.lookup (chars "a")) := by
  refine ⟨⟨by decide, by decide, by decide, ?_⟩, by decide, by decide, by decide⟩
  intro h
  rw [show ctxC7.lookup (chars "kg") = some ⟨1, [(chars "kg", 1)]⟩ from by decide]
    at h
  simp [Number.mul, umerge, uinsertAdd, chars] at h

/-- C7 (amended): the prefix law `lookup(p++u) = m · lookup(u)` holds
provided no earlier resolution step catches `p++u` (it is not a base
dimension, not a unit-table key, not an alias value, does not end in "s")
and `p` is the first prefix in insertion order that both starts `p++u` and
whose remainder resolves; the plural law `lookup(u++"s") = lookup(u)`
holds provided `u` resolves and `u++"s"` is not itself caught by steps
1–3.  (Unconditionally both laws are false: see the counterexample.) -/
theorem c7_prefix_plural_resolution (ctx : Context)
    (hpre : ∀ p ∈ ctx.prefixes, p.1 ≠ ([] : Str)) :
    (∀ (u p : Str) (m r : Number) (l₁ l₂ : List (Str × Number)),
      ctx.prefixes = l₁ ++ (p, m) :: l₂ →
      (p ++ u) ∉ ctx.dimensions →
      alookup ctx.units (p ++ u) = none →
      aliasFind ctx.aliases (p ++ u) = none →
      (p ++ u).getLast? ≠ some 's' →
      (∀ q ∈ l₁, q.1.isPrefixOf (p ++ u) = true →
        ctx.lookup ((p ++ u).drop q.1.length) = none) →
      ctx.lookup u = some r →
      UCanon m.u → UCanon r.u →
      ctx.lookup (p ++ u) = some (m.mul r)) ∧
    (∀ (u : Str) (r : Number),
      u.getLast? ≠ some 's' →
      (u ++ ['s']) ∉ ctx.dimensions →
      alookup ctx.units (u ++ ['s']) = none →
      aliasFind ctx.aliases (u ++ ['s']) = none →
      ctx.lookup u = some r →
      ctx.lookup (u ++ ['s']) = ctx.lookup u) := by
  constructor
  · intro u p m r l₁ l₂ hps h1 h2 h3 h4 hskip hu hcm hcr
    rw [lookup_fix ctx hpre (p ++ u)]
    unfold lookupBody
    rw [if_neg h1, h2, h3, if_neg h4, hps]
    have hp : p.isPrefixOf (p ++ u) = true :=
      List.isPrefixOf_iff_prefix.mpr (List.prefix_append p u)
    have hdrop : (p ++ u).drop p.length = u := List.drop_left p u
    rw [peelPre_first hskip hp (by rw [hdrop]; exact hu)]
    rw [Number.mul_comm hcr hcm]
  · intro u r h0 h1 h2 h3 hu
    rw [lookup_fix ctx hpre (u ++ ['s'])]
    unfold lookupBody
    rw [if_neg h1, h2, h3]
    rw [List.getLast?_concat, if_pos rfl, List.dropLast_concat, hu]

/-- Witness for C7's amended laws in `ctxC2`: "km" = kilo times "m", and
"ms" resolves to "m". -/
theorem c7_prefix_plural_resolution_witness :
    ctxC2.lookup (chars "m") = some ⟨1, [(chars "length", 1)]⟩ ∧
    ctxC2.lookup (chars "km")
      = some ((⟨1000, []⟩ : Number).mul ⟨1, [(chars "length", 1)]⟩) ∧
    ctxC2.lookup (chars "ms") = ctxC2.lookup (chars "m") :=
  ⟨by decide,
   (c7_prefix_plural_resolution ctxC2 (by decide)).1 (chars "m") (chars "k")
     ⟨1000, []⟩ ⟨1, [(chars "length", 1)]⟩ [] [] rfl (by decide) (by decide)
     (by decide) (by decide) (by decide) (by decide) (by decide) (by decide),
   (c7_prefix_plural_resolution ctxC2 (by decide)).2 (chars "m")
     ⟨1, [(chars "length", 1)]⟩ (by decide) (by decide) (by decide) (by decide)
     (by decide)⟩

/-- C8: the function-call dispatch.  With successfully evaluated
arguments: any name other than "sqrt" errors "Function not found"; "sqrt"
with arity other than 1 errors with the arity message; "sqrt" of a
dimensioned number with every exponent even returns the (modelled) integer
square root of the magnitude with all exponents halved; odd exponents and
timestamp arguments error. -/
theorem c8_sqrt_dispatch (ctx : Context) (name : Str) (args : List Expr)
    (vs : List Value) (hargs : evalArgs ctx args = .ok vs) :
    (name ≠ chars "sqrt" →
      eval ctx (.call name args)
        = .error ("Function not found: " ++ strOf name)) ∧
    (vs.length ≠ 1 →
      eval ctx (.call (chars "sqrt") args)
        = .error ("Argument number mismatch for sqrt: expected 1, got "
                  ++ toString vs.length)) ∧
    (∀ num : Number, vs = [.number num] → udivisible 2 num.u = true →
      eval ctx (.call (chars "sqrt") args)
        = .ok (.number ⟨ratIntSqrt num.q, udiv 2 num.u⟩)) ∧
    (∀ num : Number, vs = [.number num] → udivisible 2 num.u = false →
      eval ctx (.call (chars "sqrt") args)
        = .error ("Expected squared units, got <" ++ num.show ++ ">")) ∧
    (∀ d : ℚ, vs = [.datetime d] →
      eval ctx (.call (chars "sqrt") args)
        = .error ("Expected number, got <" ++ Value.show (.datetime d) ++ ">")) := by
  refine ⟨?_, ?_, ?_, ?_, ?_⟩
  · intro hn
    simp [eval, hargs, Res.bind, callDispatch, hn]
  · intro hlen
    simp only [eval, hargs, Res.bind]
    unfold callDispatch
    rw [if_pos rfl]
    match vs, hlen with
    | [], _ => rfl
    | [Value.number num], h => exact absurd rfl h
    | [Value.datetime d], h => exact absurd rfl h
    | Value.number _ :: b :: rest, _ => rfl
    | Value.datetime _ :: b :: rest, _ => rfl
  · intro num hvs hdiv
    subst hvs
    simp [eval, hargs, Res.bind, callDispatch, Number.root, hdiv]
  · intro num hvs hdiv
    subst hvs
    simp [eval, hargs, Res.bind, callDispatch, Number.root, hdiv]
  · intro d hvs
    subst hvs
    simp [eval, hargs, Res.bind, callDispatch]

/-- Witness for C8: an unknown function name, a successful sqrt of a
stored number with even exponents, and a failing sqrt of an odd-exponent
quoted unit. -/
theorem c8_sqrt_dispatch_witness :
    evalArgs ctxC8 [.unit (chars "m2")]
      = .ok [.number ⟨4, [(chars "m", 2)]⟩] ∧
    eval ctxC8 (.call (chars "cbrt") [.unit (chars "m2")])
      = .error ("Function not found: " ++ strOf (chars "cbrt")) ∧
    eval ctxC8 (.call (chars "sqrt") [.unit (chars "m2")])
      = .ok (.number ⟨ratIntSqrt 4, udiv 2 [(chars "m", 2)]⟩) ∧
    eval Context.new (.call (chars "sqrt") [.quote (chars "m")])
      = .error ("Expected squared units, got <"
                ++ Number.show ⟨1, [(chars "m", 1)]⟩ ++ ">") :=
  ⟨rfl,
   (c8_sqrt_dispatch ctxC8 (chars "cbrt") [.unit (chars "m2")]
     [.number ⟨4, [(chars "m", 2)]⟩] rfl).1 (by decide),
   (c8_sqrt_dispatch ctxC8 (chars "sqrt") [.unit (chars "m2")]
     [.number ⟨4, [(chars "m", 2)]⟩] rfl).2.2.1 ⟨4, [(chars "m", 2)]⟩ rfl
     (by decide),
   (c8_sqrt_dispatch Context.new (chars "sqrt") [.quote (chars "m")]
     [.number ⟨1, [(chars "m", 1)]⟩] rfl).2.2.2.1 ⟨1, [(chars "m", 1)]⟩ rfl
     (by decide)⟩

/-- C10: the unconditional `lookup(name).unwrap()` of the definition-lookup
query CAN fail on a loader-produced environment: when a later Quantity
overwrites an earlier name's alias entry (same unit vector), the earlier
name stays a key of `definitions` but no longer resolves, and the query
panics.  Both interpretation orders of the two independent definitions are
exhibited, so the counterexample is independent of the dependency sort's
tie-breaking. -/
theorem c10_definitions_lookup_unwrap_panics :
    ((alookup ctx10.definitions (chars "q1")).isSome ∧
      ctx10.lookup (chars "q1") = none ∧
      evalOuter (fun _ _ => []) ctx10 (.expr (.unit (chars "q1")))
        = .panic unwrapMsg) ∧
    ((alookup ctx10r.definitions (chars "q2")).isSome ∧
      ctx10r.lookup (chars "q2") = none ∧
      evalOuter (fun _ _ => []) ctx10r (.expr (.unit (chars "q2")))
        = .panic unwrapMsg) := by
  decide

end Rink
